import Mathlib

set_option maxHeartbeats 1000000

/- ===================================================================
   Part 1: forward-mode differentiable scalars and the dot-product
   kernel, from src/stan/agrad/fwd/matrix/dot_product.hpp.
   =================================================================== -/

/-- Modelled from the spec: the forward-mode differentiable scalar
(`stan::agrad::fvar`, whose header is outside this excerpt) is a dual
number holding a value and a derivative. -/
structure fvar (α : Type) where
  value : α
  derivative : α
deriving DecidableEq

/-- Modelled from the spec: `fvar` addition; the result's derivative is
the sum of the operand derivatives (forward-mode chain rule for `+`). -/
def fvar.add {α : Type} [Add α] (a b : fvar α) : fvar α :=
  ⟨a.value + b.value, a.derivative + b.derivative⟩

/-- Modelled from the spec: `fvar` multiplication; the result's derivative
follows the product chain rule `a.d * b.v + a.v * b.d`. -/
def fvar.mul {α : Type} [Mul α] [Add α] (a b : fvar α) : fvar α :=
  ⟨a.value * b.value, a.derivative * b.value + a.value * b.derivative⟩

/-- The additive identity `fvar(0,0)` used as the starting accumulator of
every dot-product reduction in the source. -/
def fvar.zero {α : Type} [Zero α] : fvar α := ⟨0, 0⟩

/-- The reduction loop shared by every `dot_product` overload:
`ret = (0,0); for (i = 0; i < len; i++) ret += v1[i] * v2[i]`.
Indexing uses `getD` with the `(0,0)` default; the source's `.at`/`()` is
only ever called in bounds (out-of-range access is a fail-fast
programming error per the spec), and every theorem below stays in
bounds. -/
def dotLoop {α : Type} [CommRing α] (v1 v2 : List (fvar α)) (len : Nat) : fvar α :=
  (List.range len).foldl
    (fun ret i => ret.add ((v1.getD i fvar.zero).mul (v2.getD i fvar.zero)))
    fvar.zero

/-- `dot_product` on `std::vector` operands (dot_product.hpp lines
107-117): validate matching sizes, then run the reduction over
`v1.size()` elements.  Modelled from the spec: the validation
collaborator `stan::math::validate_matching_sizes` (outside the excerpt)
signals a `ShapeMismatch` failure on unequal sizes, modelled as
`Except.error`. -/
def dot_product {α : Type} [CommRing α] (v1 v2 : List (fvar α)) :
    Except String (fvar α) :=
  if v1.length = v2.length then Except.ok (dotLoop v1 v2 v1.length)
  else Except.error "ShapeMismatch"

/-- The explicit-length `dot_product` on `std::vector` operands
(dot_product.hpp lines 143-153): no validation at all, reduce the first
`len` elements. -/
def dot_product_len {α : Type} [CommRing α] (v1 v2 : List (fvar α)) (len : Nat) :
    fvar α :=
  dotLoop v1 v2 len

/-- A matrix-backed operand of the Eigen `dot_product` overloads: a
rows-by-cols storage holding its entries. -/
structure EMat (α : Type) where
  rows : Nat
  cols : Nat
  data : List (fvar α)

/-- Total number of stored entries, the source's `v.size()`. -/
def EMat.size {α : Type} (m : EMat α) : Nat := m.data.length

/-- Modelled from the spec: `stan::math::validate_vector` (outside the
excerpt) accepts a matrix operand exactly when it is vector-shaped, a
single row or a single column. -/
def vectorShaped {α : Type} (m : EMat α) : Prop := m.rows = 1 ∨ m.cols = 1

instance {α : Type} (m : EMat α) : Decidable (vectorShaped m) := by
  unfold vectorShaped; infer_instance

/-- `dot_product` on Eigen matrix operands (dot_product.hpp lines 17-30):
validate that each operand is vector-shaped, validate matching sizes,
then run the same reduction loop over `v1.size()` elements. -/
def dot_product_mat {α : Type} [CommRing α] (v1 v2 : EMat α) :
    Except String (fvar α) :=
  if ¬ vectorShaped v1 then Except.error "ShapeMismatch"
  else if ¬ vectorShaped v2 then Except.error "ShapeMismatch"
  else if v1.size = v2.size then Except.ok (dotLoop v1.data v2.data v1.size)
  else Except.error "ShapeMismatch"

/- ------------------- dot-product lemmas ------------------- -/

lemma dotLoop_succ {α : Type} [CommRing α] (v1 v2 : List (fvar α)) (len : Nat) :
    dotLoop v1 v2 (len + 1)
      = (dotLoop v1 v2 len).add ((v1.getD len fvar.zero).mul (v2.getD len fvar.zero)) := by
  unfold dotLoop
  rw [List.range_succ, List.foldl_append, List.foldl_cons, List.foldl_nil]

lemma dotLoop_spec {α : Type} [CommRing α] (v1 v2 : List (fvar α)) (len : Nat) :
    dotLoop v1 v2 len
      = ⟨∑ i ∈ Finset.range len,
            (v1.getD i fvar.zero).value * (v2.getD i fvar.zero).value,
          ∑ i ∈ Finset.range len,
            ((v1.getD i fvar.zero).derivative * (v2.getD i fvar.zero).value
              + (v1.getD i fvar.zero).value * (v2.getD i fvar.zero).derivative)⟩ := by
  induction len with
  | zero => simp [dotLoop, fvar.zero]
  | succ k ih =>
      rw [dotLoop_succ, ih]
      simp [fvar.add, fvar.mul, Finset.sum_range_succ]

lemma getD_take {α : Type} (v : List α) (len i : Nat) (d : α) (h : i < len) :
    (v.take len).getD i d = v.getD i d := by
  simp only [List.getD, List.get?_eq_getElem?]
  rw [List.getElem?_take_of_lt h]

lemma dotLoop_take {α : Type} [CommRing α] (v1 v2 : List (fvar α)) (len : Nat) :
    dotLoop (v1.take len) (v2.take len) len = dotLoop v1 v2 len := by
  rw [dotLoop_spec, dotLoop_spec]
  congr 1
  · exact Finset.sum_congr rfl fun i hi => by
      rw [getD_take _ _ _ _ (Finset.mem_range.mp hi),
        getD_take _ _ _ _ (Finset.mem_range.mp hi)]
  · exact Finset.sum_congr rfl fun i hi => by
      rw [getD_take _ _ _ _ (Finset.mem_range.mp hi),
        getD_take _ _ _ _ (Finset.mem_range.mp hi)]

/- ------------------- claim theorems: C1, C5, C6 ------------------- -/

/-- C1: for equal-length sequences of differentiable scalars,
`dot_product` succeeds and returns the differentiable scalar whose value
is `Σ a[i].value * b[i].value` and whose derivative is
`Σ (a[i].derivative * b[i].value + a[i].value * b[i].derivative)`,
accumulated from the additive identity `(0,0)`. -/
theorem dot_product_value_derivative {α : Type} [CommRing α]
    (v1 v2 : List (fvar α)) (h : v1.length = v2.length) :
    dot_product v1 v2
      = Except.ok
          ⟨∑ i ∈ Finset.range v1.length,
              (v1.getD i fvar.zero).value * (v2.getD i fvar.zero).value,
            ∑ i ∈ Finset.range v1.length,
              ((v1.getD i fvar.zero).derivative * (v2.getD i fvar.zero).value
                + (v1.getD i fvar.zero).value * (v2.getD i fvar.zero).derivative)⟩ := by
  rw [dot_product, if_pos h, dotLoop_spec]

theorem dot_product_value_derivative_witness :
    dot_product (α := ℤ) [⟨1, 2⟩, ⟨3, 4⟩] [⟨5, 6⟩, ⟨7, 8⟩]
      = Except.ok ⟨26, 68⟩ := by
  have h := dot_product_value_derivative (α := ℤ)
    [⟨1, 2⟩, ⟨3, 4⟩] [⟨5, 6⟩, ⟨7, 8⟩] (by decide)
  rw [h]
  norm_num [Finset.sum_range_succ, fvar.zero, List.getD]

/-- C5: the explicit-length entry point with `L ≤ min(|a|,|b|)` computes
exactly what the validated full-length `dot_product` computes on the
length-`L` prefixes (so the prefixes pass the size validation and the
two reductions agree in value and derivative); the explicit-length entry
point itself performs no full-length size validation, returning a plain
scalar even when `|a| ≠ |b|`. -/
theorem dot_product_len_prefix {α : Type} [CommRing α]
    (v1 v2 : List (fvar α)) (L : Nat) (h1 : L ≤ v1.length) (h2 : L ≤ v2.length) :
    dot_product (v1.take L) (v2.take L) = Except.ok (dot_product_len v1 v2 L) := by
  have hl1 : (v1.take L).length = L := by
    rw [List.length_take]; exact Nat.min_eq_left h1
  have hl2 : (v2.take L).length = L := by
    rw [List.length_take]; exact Nat.min_eq_left h2
  rw [dot_product, if_pos (by rw [hl1, hl2]), hl1, dotLoop_take]
  rfl

theorem dot_product_len_prefix_witness :
    dot_product (List.take 2 [(⟨1, 0⟩ : fvar ℤ), ⟨2, 0⟩, ⟨3, 0⟩])
        (List.take 2 [(⟨4, 1⟩ : fvar ℤ), ⟨5, 1⟩])
      = Except.ok (dot_product_len [(⟨1, 0⟩ : fvar ℤ), ⟨2, 0⟩, ⟨3, 0⟩]
          [(⟨4, 1⟩ : fvar ℤ), ⟨5, 1⟩] 2) := by
  exact dot_product_len_prefix _ _ 2 (by decide) (by decide)

/-- C6: when the matrix-backed operands are not both vector-shaped or
their sizes differ, the full-length `dot_product` signals a
`ShapeMismatch` failure and never returns a (partial) value; likewise
the sequence overload on unequal lengths. -/
theorem dot_product_shape_mismatch {α : Type} [CommRing α]
    (m1 m2 : EMat α) (v1 v2 : List (fvar α))
    (hm : ¬ (vectorShaped m1 ∧ vectorShaped m2 ∧ m1.size = m2.size))
    (hv : v1.length ≠ v2.length) :
    (∃ e, dot_product_mat m1 m2 = Except.error e)
      ∧ (∃ e, dot_product v1 v2 = Except.error e) := by
  constructor
  · rw [dot_product_mat]
    by_cases h1 : vectorShaped m1
    · by_cases h2 : vectorShaped m2
      · have h3 : m1.size ≠ m2.size := fun h => hm ⟨h1, h2, h⟩
        rw [if_neg (not_not_intro h1), if_neg (not_not_intro h2), if_neg h3]
        exact ⟨_, rfl⟩
      · rw [if_neg (not_not_intro h1), if_pos h2]
        exact ⟨_, rfl⟩
    · rw [if_pos h1]
      exact ⟨_, rfl⟩
  · rw [dot_product, if_neg hv]
    exact ⟨_, rfl⟩

theorem dot_product_shape_mismatch_witness :
    (∃ e, dot_product_mat
        (⟨2, 2, [⟨1, 0⟩, ⟨2, 0⟩, ⟨3, 0⟩, ⟨4, 0⟩]⟩ : EMat ℤ)
        (⟨1, 4, [⟨1, 0⟩, ⟨2, 0⟩, ⟨3, 0⟩, ⟨4, 0⟩]⟩ : EMat ℤ) = Except.error e)
      ∧ (∃ e, dot_product [(⟨1, 0⟩ : fvar ℤ)] [⟨1, 0⟩, ⟨2, 0⟩] = Except.error e) := by
  exact dot_product_shape_mismatch _ _ _ _ (by decide) (by decide)

/- ===================================================================
   Part 2: the Gumbel distribution kernel, from
   src/stan/prob/distributions/univariate/continuous/gumbel.hpp.
   The floating-point doubles of the source are embedded as real
   numbers. -/

open Classical

/-- Modelled from the spec: the validation collaborator's
`check_not_nan`.  The embedding works over the real numbers, where no
value is NaN, so the check always passes. -/
def check_not_nan (v : List ℝ) : Prop := v = v

/-- Modelled from the spec: `check_finite`; every real number is finite,
so the check always passes in the embedding. -/
def check_finite (v : List ℝ) : Prop := v = v

/-- Modelled from the spec: `check_positive` requires every element of
the checked argument to be strictly positive. -/
def check_positive (v : List ℝ) : Prop := ∀ x ∈ v, 0 < x

/-- The broadcast length `N = max_size(y, mu, beta)`. -/
def max_size (y mu beta : List ℝ) : Nat :=
  max (max y.length mu.length) beta.length

/-- Modelled from the spec: `check_consistent_sizes` requires each
argument's length to be 1 or the common broadcast maximum. -/
def check_consistent_sizes (y mu beta : List ℝ) : Prop :=
  (y.length = 1 ∨ y.length = max_size y mu beta)
    ∧ (mu.length = 1 ∨ mu.length = max_size y mu beta)
    ∧ (beta.length = 1 ∨ beta.length = max_size y mu beta)

/-- Modelled from the spec: `include_summand<propto, T...>` keeps a term
unless proportional-only mode is on and every listed operand type is a
non-differentiable constant.  `consts` lists the `is_constant_struct`
flags of the operand types the term depends on. -/
def include_summand (propto : Bool) (consts : List Bool) : Bool :=
  !propto || consts.any (fun c => !c)

/-- Modelled from the spec: the Shape Adapter (`VectorView`): a scalar
operand (logical length 1) broadcasts its single element to every index,
a vector operand is indexed directly (always in bounds after
`check_consistent_sizes`). -/
def bcastIdx (v : List ℝ) (n : Nat) : ℝ :=
  if v.length = 1 then v.getD 0 0 else v.getD n 0

/-- Modelled from the spec: the Accumulator's partial-buffer slot written
for broadcast index `n`: a scalar operand owns the single slot 0, a
vector operand one slot per element. -/
def slotIdx (v : List ℝ) (n : Nat) : Nat :=
  if v.length = 1 then 0 else n

/-- Pointwise accumulation `buf[i] += c` into a partial buffer. -/
noncomputable def updAt (d : Nat → ℝ) (i : Nat) (c : ℝ) : Nat → ℝ :=
  fun m => if m = i then d m + c else d m

/-- The per-element precomputation `inv_beta[n] = 1.0 / beta_vec[n]`
(gumbel.hpp line 85). -/
noncomputable def invBeta (beta : List ℝ) (n : Nat) : ℝ := 1 / bcastIdx beta n

/-- The reusable subexpression `y_minus_mu_over_beta` of gumbel.hpp
lines 96-97: `(y_dbl - mu_dbl) * inv_beta[n]`. -/
noncomputable def zVal (y mu beta : List ℝ) (n : Nat) : ℝ :=
  (bcastIdx y n - bcastIdx mu n) * invBeta beta n

/-- `scaled_diff = inv_beta[n] * exp(-y_minus_mu_over_beta)` (line 106). -/
noncomputable def scaledDiff (y mu beta : List ℝ) (n : Nat) : ℝ :=
  invBeta beta n * Real.exp (-zVal y mu beta n)

/-- Per-iteration amount added to `d_x1[n]` by line 108:
`d_x1[n] -= inv_beta[n] - scaled_diff`. -/
noncomputable def dyContrib (y mu beta : List ℝ) (n : Nat) : ℝ :=
  -(invBeta beta n - scaledDiff y mu beta n)

/-- Per-iteration amount added to `d_x2[n]` by line 110. -/
noncomputable def dmuContrib (y mu beta : List ℝ) (n : Nat) : ℝ :=
  invBeta beta n - scaledDiff y mu beta n

/-- Per-iteration amount added to `d_x3[n]` by lines 112-113. -/
noncomputable def dbetaContrib (y mu beta : List ℝ) (n : Nat) : ℝ :=
  -invBeta beta n + zVal y mu beta n * invBeta beta n
    - scaledDiff y mu beta n * zVal y mu beta n

/-- The state threaded through the reduction loop of `gumbel_log`: the
running `logp` and the Accumulator's three partial buffers
(`OperandsAndPartials.d_x1/d_x2/d_x3`, modelled from the spec as
zero-initialized buffers; a constant operand's buffer is never
written). -/
structure GState where
  logp : ℝ
  d_x1 : Nat → ℝ
  d_x2 : Nat → ℝ
  d_x3 : Nat → ℝ

/-- The state produced outside the reduction loop: `logp` as given, all
partial buffers zero. -/
noncomputable def gumbelSentinel (l : ℝ) : GState :=
  ⟨l, fun _ => 0, fun _ => 0, fun _ => 0⟩

/-- One iteration of the `gumbel_log` reduction loop (gumbel.hpp lines
90-114): conditionally subtract `log_beta[n]`, conditionally add
`-z - exp(-z)`, and accumulate the gradient contributions for each
non-constant operand. -/
noncomputable def gumbelStep (propto yc muc bc : Bool) (y mu beta : List ℝ)
    (s : GState) (n : Nat) : GState :=
  let logp1 := if include_summand propto [bc] = true
    then s.logp - Real.log (bcastIdx beta n) else s.logp
  let logp2 := if include_summand propto [yc, muc, bc] = true
    then logp1 + (-zVal y mu beta n - Real.exp (-zVal y mu beta n)) else logp1
  { logp := logp2
    d_x1 := if yc = true then s.d_x1
      else updAt s.d_x1 (slotIdx y n) (dyContrib y mu beta n)
    d_x2 := if muc = true then s.d_x2
      else updAt s.d_x2 (slotIdx mu n) (dmuContrib y mu beta n)
    d_x3 := if bc = true then s.d_x3
      else updAt s.d_x3 (slotIdx beta n) (dbetaContrib y mu beta n) }

/-- `gumbel_log<propto>(y, mu, beta, policy)` (gumbel.hpp lines 28-116).
`yc`, `muc`, `bc` are the `is_constant_struct` flags of the operand
types.  The result carries the accumulated `logp` and the partial
buffers; the source's final `operands_and_partials.to_var(logp)`
packages exactly these (Accumulator finalize, modelled from the
spec). -/
noncomputable def gumbel_log (propto yc muc bc : Bool) (y mu beta : List ℝ) :
    GState :=
  if y.length = 0 ∨ mu.length = 0 ∨ beta.length = 0 then gumbelSentinel 0
  else if ¬ check_not_nan y then gumbelSentinel 0
  else if ¬ check_finite mu then gumbelSentinel 0
  else if ¬ check_positive beta then gumbelSentinel 0
  else if ¬ check_consistent_sizes y mu beta then gumbelSentinel 0
  else if include_summand propto [yc, muc, bc] = false then gumbelSentinel 0
  else (List.range (max_size y mu beta)).foldl
    (gumbelStep propto yc muc bc y mu beta) (gumbelSentinel 0)

/-- The overload taking a policy but no proportionality flag
(gumbel.hpp lines 126-133): delegates with `propto = false`.  The
policy only selects the error-signalling style, which the value model
leaves implicit. -/
noncomputable def gumbel_log_policy (yc muc bc : Bool) (y mu beta : List ℝ) :
    GState :=
  gumbel_log false yc muc bc y mu beta

/-- The plain overload taking neither flag nor policy (gumbel.hpp lines
135-140): delegates with `propto = false` and the default policy. -/
noncomputable def gumbel_log_plain (yc muc bc : Bool) (y mu beta : List ℝ) :
    GState :=
  gumbel_log false yc muc bc y mu beta

/-- `gumbel_cdf(y, mu, beta, policy)` (gumbel.hpp lines 153-213, the
active side of the merge artifact): validate, then multiply
`exp(-exp(-(y-mu)/beta))` across the broadcast length, starting from the
multiplicative identity 1; no derivative accumulation. -/
noncomputable def gumbel_cdf (y mu beta : List ℝ) : ℝ :=
  if y.length = 0 ∨ mu.length = 0 ∨ beta.length = 0 then 1
  else if ¬ check_not_nan y then 1
  else if ¬ check_finite mu then 1
  else if ¬ check_not_nan beta then 1
  else if ¬ check_positive beta then 1
  else if ¬ check_consistent_sizes y mu beta then 1
  else (List.range (max_size y mu beta)).foldl
    (fun c n =>
      c * Real.exp (-Real.exp (-(bcastIdx y n - bcastIdx mu n) / bcastIdx beta n)))
    1

/- ------------------- gumbel loop lemmas ------------------- -/

/-- The combined amount one loop iteration adds to `logp`. -/
noncomputable def gumbelTerm (propto yc muc bc : Bool) (y mu beta : List ℝ)
    (n : Nat) : ℝ :=
  (if include_summand propto [bc] = true then -Real.log (bcastIdx beta n) else 0)
    + (if include_summand propto [yc, muc, bc] = true
        then -zVal y mu beta n - Real.exp (-zVal y mu beta n) else 0)

lemma gumbelStep_logp (propto yc muc bc : Bool) (y mu beta : List ℝ)
    (s : GState) (n : Nat) :
    (gumbelStep propto yc muc bc y mu beta s n).logp
      = s.logp + gumbelTerm propto yc muc bc y mu beta n := by
  unfold gumbelStep gumbelTerm
  by_cases h1 : include_summand propto [bc] = true <;>
    by_cases h2 : include_summand propto [yc, muc, bc] = true <;>
      simp [h1, h2] <;> ring

lemma gumbelLoop_logp (propto yc muc bc : Bool) (y mu beta : List ℝ)
    (k : Nat) (s : GState) :
    ((List.range k).foldl (gumbelStep propto yc muc bc y mu beta) s).logp
      = s.logp + ∑ n ∈ Finset.range k, gumbelTerm propto yc muc bc y mu beta n := by
  induction k with
  | zero => simp
  | succ k ih =>
      rw [List.range_succ, List.foldl_append, List.foldl_cons, List.foldl_nil,
        gumbelStep_logp, ih, Finset.sum_range_succ]
      ring

lemma gumbelLoop_d_x1 (propto yc muc bc : Bool) (y mu beta : List ℝ)
    (hy : y.length ≠ 1) (k : Nat) (s : GState) (m : Nat) :
    ((List.range k).foldl (gumbelStep propto yc muc bc y mu beta) s).d_x1 m
      = if yc = false ∧ m < k then s.d_x1 m + dyContrib y mu beta m
        else s.d_x1 m := by
  induction k with
  | zero => simp
  | succ k ih =>
      rw [List.range_succ, List.foldl_append, List.foldl_cons, List.foldl_nil]
      have hslot : slotIdx y k = k := by rw [slotIdx, if_neg hy]
      cases yc with
      | true => simpa [gumbelStep] using ih
      | false =>
          simp only [gumbelStep, Bool.false_eq_true, if_false, hslot, updAt]
          simp only [Bool.false_eq_true, false_and] at ih ⊢
          by_cases hm : m = k
          · subst hm
            rw [if_pos rfl, ih, if_neg (by omega)]
            simp [Nat.lt_succ_self]
          · rw [if_neg hm, ih]
            by_cases hlt : m < k
            · rw [if_pos (by simpa using hlt), if_pos (by simp; omega)]
            · rw [if_neg (by simpa using hlt), if_neg (by simp; omega)]

lemma gumbelLoop_d_x2 (propto yc muc bc : Bool) (y mu beta : List ℝ)
    (hmu : mu.length ≠ 1) (k : Nat) (s : GState) (m : Nat) :
    ((List.range k).foldl (gumbelStep propto yc muc bc y mu beta) s).d_x2 m
      = if muc = false ∧ m < k then s.d_x2 m + dmuContrib y mu beta m
        else s.d_x2 m := by
  induction k with
  | zero => simp
  | succ k ih =>
      rw [List.range_succ, List.foldl_append, List.foldl_cons, List.foldl_nil]
      have hslot : slotIdx mu k = k := by rw [slotIdx, if_neg hmu]
      cases muc with
      | true => simpa [gumbelStep] using ih
      | false =>
          simp only [gumbelStep, Bool.false_eq_true, if_false, hslot, updAt]
          simp only [Bool.false_eq_true, false_and] at ih ⊢
          by_cases hm : m = k
          · subst hm
            rw [if_pos rfl, ih, if_neg (by omega)]
            simp [Nat.lt_succ_self]
          · rw [if_neg hm, ih]
            by_cases hlt : m < k
            · rw [if_pos (by simpa using hlt), if_pos (by simp; omega)]
            · rw [if_neg (by simpa using hlt), if_neg (by simp; omega)]

lemma gumbelLoop_d_x3 (propto yc muc bc : Bool) (y mu beta : List ℝ)
    (hb : beta.length ≠ 1) (k : Nat) (s : GState) (m : Nat) :
    ((List.range k).foldl (gumbelStep propto yc muc bc y mu beta) s).d_x3 m
      = if bc = false ∧ m < k then s.d_x3 m + dbetaContrib y mu beta m
        else s.d_x3 m := by
  induction k with
  | zero => simp
  | succ k ih =>
      rw [List.range_succ, List.foldl_append, List.foldl_cons, List.foldl_nil]
      have hslot : slotIdx beta k = k := by rw [slotIdx, if_neg hb]
      cases bc with
      | true => simpa [gumbelStep] using ih
      | false =>
          simp only [gumbelStep, Bool.false_eq_true, if_false, hslot, updAt]
          simp only [Bool.false_eq_true, false_and] at ih ⊢
          by_cases hm : m = k
          · subst hm
            rw [if_pos rfl, ih, if_neg (by omega)]
            simp [Nat.lt_succ_self]
          · rw [if_neg hm, ih]
            by_cases hlt : m < k
            · rw [if_pos (by simpa using hlt), if_pos (by simp; omega)]
            · rw [if_neg (by simpa using hlt), if_neg (by simp; omega)]

/- ------------------- gumbel control-flow lemmas ------------------- -/

lemma gumbel_log_checks_pass (propto yc muc bc : Bool) (y mu beta : List ℝ)
    (h1 : ¬(y.length = 0 ∨ mu.length = 0 ∨ beta.length = 0))
    (hpos : check_positive beta) (hcons : check_consistent_sizes y mu beta)
    (hinc : include_summand propto [yc, muc, bc] = true) :
    gumbel_log propto yc muc bc y mu beta
      = (List.range (max_size y mu beta)).foldl
          (gumbelStep propto yc muc bc y mu beta) (gumbelSentinel 0) := by
  rw [gumbel_log, if_neg h1, if_neg (by simp [check_not_nan]),
    if_neg (by simp [check_finite]), if_neg (not_not_intro hpos),
    if_neg (not_not_intro hcons), if_neg (by simp [hinc])]

lemma gumbel_log_failed_checks (propto yc muc bc : Bool) (y mu beta : List ℝ)
    (h1 : ¬(y.length = 0 ∨ mu.length = 0 ∨ beta.length = 0))
    (hfail : ¬ check_positive beta ∨ ¬ check_consistent_sizes y mu beta) :
    gumbel_log propto yc muc bc y mu beta = gumbelSentinel 0 := by
  rw [gumbel_log, if_neg h1, if_neg (by simp [check_not_nan]),
    if_neg (by simp [check_finite])]
  rcases hfail with h | h
  · rw [if_pos h]
  · by_cases hp : check_positive beta
    · rw [if_neg (not_not_intro hp), if_pos h]
    · rw [if_pos hp]

lemma gumbel_log_skip (propto yc muc bc : Bool) (y mu beta : List ℝ)
    (h1 : ¬(y.length = 0 ∨ mu.length = 0 ∨ beta.length = 0))
    (hpos : check_positive beta) (hcons : check_consistent_sizes y mu beta)
    (hinc : include_summand propto [yc, muc, bc] = false) :
    gumbel_log propto yc muc bc y mu beta = gumbelSentinel 0 := by
  rw [gumbel_log, if_neg h1, if_neg (by simp [check_not_nan]),
    if_neg (by simp [check_finite]), if_neg (not_not_intro hpos),
    if_neg (not_not_intro hcons), if_pos hinc]

lemma foldl_mul_prod (f : Nat → ℝ) (k : Nat) (a : ℝ) :
    (List.range k).foldl (fun c n => c * f n) a
      = a * ∏ n ∈ Finset.range k, f n := by
  induction k with
  | zero => simp
  | succ k ih =>
      rw [List.range_succ, List.foldl_append, List.foldl_cons, List.foldl_nil,
        ih, Finset.prod_range_succ]
      ring

lemma gumbel_cdf_checks_pass (y mu beta : List ℝ)
    (h1 : ¬(y.length = 0 ∨ mu.length = 0 ∨ beta.length = 0))
    (hpos : check_positive beta) (hcons : check_consistent_sizes y mu beta) :
    gumbel_cdf y mu beta
      = ∏ n ∈ Finset.range (max_size y mu beta),
          Real.exp (-Real.exp (-(bcastIdx y n - bcastIdx mu n) / bcastIdx beta n)) := by
  rw [gumbel_cdf, if_neg h1, if_neg (by simp [check_not_nan]),
    if_neg (by simp [check_finite]), if_neg (by simp [check_not_nan]),
    if_neg (not_not_intro hpos), if_neg (not_not_intro hcons),
    foldl_mul_prod, one_mul]

/- ------------------- analytic forms of the contributions ------------------- -/

lemma dyContrib_eq (y mu beta : List ℝ) (n : Nat) :
    dyContrib y mu beta n
      = -(1 / bcastIdx beta n)
          * (1 - Real.exp (-((bcastIdx y n - bcastIdx mu n) / bcastIdx beta n))) := by
  simp only [dyContrib, scaledDiff, invBeta, zVal, mul_one_div]
  ring

lemma dmuContrib_eq (y mu beta : List ℝ) (n : Nat) :
    dmuContrib y mu beta n
      = (1 / bcastIdx beta n)
          * (1 - Real.exp (-((bcastIdx y n - bcastIdx mu n) / bcastIdx beta n))) := by
  simp only [dmuContrib, scaledDiff, invBeta, zVal, mul_one_div]
  ring

lemma dbetaContrib_eq (y mu beta : List ℝ) (n : Nat) :
    dbetaContrib y mu beta n
      = (1 / bcastIdx beta n)
          * (((bcastIdx y n - bcastIdx mu n) / bcastIdx beta n)
              * (1 - Real.exp (-((bcastIdx y n - bcastIdx mu n) / bcastIdx beta n))) - 1) := by
  simp only [dbetaContrib, scaledDiff, invBeta, zVal, mul_one_div]
  ring

/- Common facts for same-length operand triples. -/

lemma max_size_all_eq (y mu beta : List ℝ) (N : Nat)
    (hy : y.length = N) (hm : mu.length = N) (hb : beta.length = N) :
    max_size y mu beta = N := by
  simp [max_size, hy, hm, hb]

lemma check_consistent_sizes_all_eq (y mu beta : List ℝ) (N : Nat)
    (hy : y.length = N) (hm : mu.length = N) (hb : beta.length = N) :
    check_consistent_sizes y mu beta := by
  refine ⟨Or.inr ?_, Or.inr ?_, Or.inr ?_⟩ <;>
    rw [max_size_all_eq y mu beta N hy hm hb] <;> assumption

lemma check_positive_one : check_positive [(1:ℝ)] := by
  intro x hx
  rw [List.mem_singleton] at hx
  rw [hx]
  norm_num

/- ------------------- claim theorems: C2 ------------------- -/

/-- C2 (amended): when validation passes and the call is not the
degenerate proportional-only case with all three operand types constant
(in which the source returns 0.0 from the skip check before the loop),
the accumulated log-probability equals the broadcast sum of
`-log(beta[n]) - z_n - exp(-z_n)`, the `-log(beta[n])` summand present
exactly when `include_summand` keeps the scale term; at `y=0, mu=0,
beta=1` the full-mode value is -1 (see the witness). -/
theorem gumbel_log_value (propto yc muc bc : Bool) (y mu beta : List ℝ)
    (h1 : ¬(y.length = 0 ∨ mu.length = 0 ∨ beta.length = 0))
    (hpos : check_positive beta) (hcons : check_consistent_sizes y mu beta)
    (hinc : include_summand propto [yc, muc, bc] = true) :
    (gumbel_log propto yc muc bc y mu beta).logp
      = ∑ n ∈ Finset.range (max_size y mu beta),
          ((if include_summand propto [bc] = true
              then -Real.log (bcastIdx beta n) else 0)
            + (-((bcastIdx y n - bcastIdx mu n) / bcastIdx beta n)
                - Real.exp (-((bcastIdx y n - bcastIdx mu n) / bcastIdx beta n)))) := by
  rw [gumbel_log_checks_pass propto yc muc bc y mu beta h1 hpos hcons hinc,
    gumbelLoop_logp]
  simp only [gumbelSentinel, zero_add]
  refine Finset.sum_congr rfl fun n _ => ?_
  unfold gumbelTerm
  rw [if_pos hinc]
  congr 1
  simp only [zVal, invBeta, mul_one_div]

/-- C2 counterexample: in proportional-only mode with all three operand
types constant, `gumbel_log` returns 0.0 from the skip check, not the
value the claim's formula prescribes (-1 at y=0, mu=0, beta=1, with the
scale summand excluded as the claim allows). -/
theorem gumbel_log_value_cex :
    (gumbel_log true true true true [(0:ℝ)] [0] [1]).logp
      ≠ ∑ n ∈ Finset.range (max_size [(0:ℝ)] [0] [1]),
          ((if include_summand true [true] = true
              then -Real.log (bcastIdx [(1:ℝ)] n) else 0)
            + (-((bcastIdx [(0:ℝ)] n - bcastIdx [(0:ℝ)] n) / bcastIdx [(1:ℝ)] n)
                - Real.exp (-((bcastIdx [(0:ℝ)] n - bcastIdx [(0:ℝ)] n)
                    / bcastIdx [(1:ℝ)] n)))) := by
  have hl : (gumbel_log true true true true [(0:ℝ)] [0] [1]).logp = 0 := by
    rw [gumbel_log_skip true true true true [(0:ℝ)] [0] [1] (by norm_num)
      check_positive_one
      (check_consistent_sizes_all_eq [(0:ℝ)] [0] [1] 1 rfl rfl rfl)
      (by decide)]
    rfl
  rw [hl]
  simp only [max_size, List.length_singleton, max_self, Finset.sum_range_one,
    bcastIdx, if_pos rfl, List.getD]
  norm_num [include_summand, Real.exp_zero]

theorem gumbel_log_value_witness :
    (gumbel_log false true true true [(0:ℝ)] [0] [1]).logp = -1 := by
  have h := gumbel_log_value false true true true [(0:ℝ)] [0] [1] (by norm_num)
    check_positive_one
    (check_consistent_sizes_all_eq [(0:ℝ)] [0] [1] 1 rfl rfl rfl)
    (by decide)
  rw [h]
  simp only [max_size, List.length_singleton, max_self, Finset.sum_range_one,
    bcastIdx, if_pos rfl, List.getD]
  norm_num [include_summand, Real.exp_zero, Real.log_one]

/- ------------------- claim theorems: C3 ------------------- -/

lemma consistent_sizes_nonzero (y mu beta : List ℝ) (N : Nat) (hN : 0 < N)
    (hms : max_size y mu beta = N) (hcons : check_consistent_sizes y mu beta) :
    ¬(y.length = 0 ∨ mu.length = 0 ∨ beta.length = 0) := by
  obtain ⟨hcy, hcm, hcb⟩ := hcons
  rw [hms] at hcy hcm hcb
  omega

lemma gumbel_log_d_x1_contrib (propto yc muc bc : Bool) (y mu beta : List ℝ)
    (N : Nat) (hN : 0 < N) (hms : max_size y mu beta = N)
    (hcons : check_consistent_sizes y mu beta) (hpos : check_positive beta)
    (n : Nat) (hn : n < N) (hyc : yc = false) (hy : y.length = N) :
    (gumbel_log propto yc muc bc y mu beta).d_x1 n = dyContrib y mu beta n := by
  have h1 := consistent_sizes_nonzero y mu beta N hN hms hcons
  have hinc : include_summand propto [yc, muc, bc] = true := by
    subst hyc; cases propto <;> simp [include_summand]
  rw [gumbel_log_checks_pass propto yc muc bc y mu beta h1 hpos hcons hinc, hms]
  by_cases hN1 : N = 1
  · subst hN1
    have hn0 : n = 0 := by omega
    subst hn0
    rw [List.range_succ, List.range_zero, List.nil_append, List.foldl_cons, List.foldl_nil]
    simp [gumbelStep, hyc, updAt, slotIdx, gumbelSentinel]
  · have hylen : y.length ≠ 1 := by rw [hy]; exact hN1
    rw [gumbelLoop_d_x1 propto yc muc bc y mu beta hylen N (gumbelSentinel 0) n,
      if_pos ⟨hyc, hn⟩]
    simp [gumbelSentinel]

lemma gumbel_log_d_x2_contrib (propto yc muc bc : Bool) (y mu beta : List ℝ)
    (N : Nat) (hN : 0 < N) (hms : max_size y mu beta = N)
    (hcons : check_consistent_sizes y mu beta) (hpos : check_positive beta)
    (n : Nat) (hn : n < N) (hmuc : muc = false) (hm : mu.length = N) :
    (gumbel_log propto yc muc bc y mu beta).d_x2 n = dmuContrib y mu beta n := by
  have h1 := consistent_sizes_nonzero y mu beta N hN hms hcons
  have hinc : include_summand propto [yc, muc, bc] = true := by
    subst hmuc; cases propto <;> cases yc <;> simp [include_summand]
  rw [gumbel_log_checks_pass propto yc muc bc y mu beta h1 hpos hcons hinc, hms]
  by_cases hN1 : N = 1
  · subst hN1
    have hn0 : n = 0 := by omega
    subst hn0
    rw [List.range_succ, List.range_zero, List.nil_append, List.foldl_cons, List.foldl_nil]
    simp [gumbelStep, hmuc, updAt, slotIdx, gumbelSentinel]
  · have hmulen : mu.length ≠ 1 := by rw [hm]; exact hN1
    rw [gumbelLoop_d_x2 propto yc muc bc y mu beta hmulen N (gumbelSentinel 0) n,
      if_pos ⟨hmuc, hn⟩]
    simp [gumbelSentinel]

lemma gumbel_log_d_x3_contrib (propto yc muc bc : Bool) (y mu beta : List ℝ)
    (N : Nat) (hN : 0 < N) (hms : max_size y mu beta = N)
    (hcons : check_consistent_sizes y mu beta) (hpos : check_positive beta)
    (n : Nat) (hn : n < N) (hbc : bc = false) (hb : beta.length = N) :
    (gumbel_log propto yc muc bc y mu beta).d_x3 n = dbetaContrib y mu beta n := by
  have h1 := consistent_sizes_nonzero y mu beta N hN hms hcons
  have hinc : include_summand propto [yc, muc, bc] = true := by
    subst hbc; cases propto <;> cases yc <;> cases muc <;> simp [include_summand]
  rw [gumbel_log_checks_pass propto yc muc bc y mu beta h1 hpos hcons hinc, hms]
  by_cases hN1 : N = 1
  · subst hN1
    have hn0 : n = 0 := by omega
    subst hn0
    rw [List.range_succ, List.range_zero, List.nil_append, List.foldl_cons, List.foldl_nil]
    simp [gumbelStep, hbc, updAt, slotIdx, gumbelSentinel]
  · have hblen : beta.length ≠ 1 := by rw [hb]; exact hN1
    rw [gumbelLoop_d_x3 propto yc muc bc y mu beta hblen N (gumbelSentinel 0) n,
      if_pos ⟨hbc, hn⟩]
    simp [gumbelSentinel]

/-- C3: for every y, mu, beta passing validation (strictly positive
scale, lengths each 1 or the broadcast maximum N), the per-element
partials accumulated for each differentiable operand equal the analytic
partials of the Gumbel log-density:
`d(logp)/dy[n] = -(1/beta[n])(1 - exp(-z_n))`,
`d(logp)/dmu[n] = (1/beta[n])(1 - exp(-z_n))`,
`d(logp)/dbeta[n] = (1/beta[n])(z_n (1 - exp(-z_n)) - 1)` with
`z_n = (y[n] - mu[n]) / beta[n]` over the broadcast (`bcastIdx`) views.
The per-element statement for an operand presupposes that operand owns
one partial slot per broadcast index, i.e. has length N (a scalar
broadcast operand instead accumulates the sum of its contributions into
its single slot); the other operands may broadcast freely.  At y=0,
mu=0, beta=1 the y-partial is 0 (see the witness, which exercises a
vector y against scalar mu, beta). -/
theorem gumbel_log_partials (propto yc muc bc : Bool) (y mu beta : List ℝ)
    (N : Nat) (hN : 0 < N) (hms : max_size y mu beta = N)
    (hcons : check_consistent_sizes y mu beta) (hpos : check_positive beta)
    (n : Nat) (hn : n < N) :
    (yc = false → y.length = N →
        (gumbel_log propto yc muc bc y mu beta).d_x1 n
          = -(1 / bcastIdx beta n)
              * (1 - Real.exp (-((bcastIdx y n - bcastIdx mu n) / bcastIdx beta n))))
      ∧ (muc = false → mu.length = N →
        (gumbel_log propto yc muc bc y mu beta).d_x2 n
          = (1 / bcastIdx beta n)
              * (1 - Real.exp (-((bcastIdx y n - bcastIdx mu n) / bcastIdx beta n))))
      ∧ (bc = false → beta.length = N →
        (gumbel_log propto yc muc bc y mu beta).d_x3 n
          = (1 / bcastIdx beta n)
              * (((bcastIdx y n - bcastIdx mu n) / bcastIdx beta n)
                  * (1 - Real.exp (-((bcastIdx y n - bcastIdx mu n) / bcastIdx beta n)))
                  - 1)) := by
  refine ⟨fun hyc hy => ?_, fun hmuc hm => ?_, fun hbc hb => ?_⟩
  · rw [gumbel_log_d_x1_contrib propto yc muc bc y mu beta N hN hms hcons hpos
      n hn hyc hy, dyContrib_eq]
  · rw [gumbel_log_d_x2_contrib propto yc muc bc y mu beta N hN hms hcons hpos
      n hn hmuc hm, dmuContrib_eq]
  · rw [gumbel_log_d_x3_contrib propto yc muc bc y mu beta N hN hms hcons hpos
      n hn hbc hb, dbetaContrib_eq]

theorem gumbel_log_partials_witness :
    (gumbel_log true false false false [(0:ℝ), 0] [0] [1]).d_x1 1 = 0 := by
  have h := (gumbel_log_partials true false false false [(0:ℝ), 0] [0] [1] 2
    (by norm_num) (by simp [max_size]) (by simp [check_consistent_sizes, max_size])
    check_positive_one 1 (by norm_num)).1 rfl rfl
  rw [h]
  simp only [bcastIdx, List.length_cons, List.length_singleton, List.getD]
  norm_num [Real.exp_zero]

/- ------------------- claim theorems: C4 ------------------- -/

/-- C4: when a validation check fails (non-positive scale element or
inconsistent sizes; the NaN and finiteness checks cannot fail in the
real-number embedding), `gumbel_log` aborts before the reduction loop
and returns the sentinel: the 0.0 log-probability accumulated so far,
with no partials written. -/
theorem gumbel_log_validation_sentinel (propto yc muc bc : Bool)
    (y mu beta : List ℝ)
    (h1 : ¬(y.length = 0 ∨ mu.length = 0 ∨ beta.length = 0))
    (hfail : ¬ check_positive beta ∨ ¬ check_consistent_sizes y mu beta) :
    gumbel_log propto yc muc bc y mu beta = gumbelSentinel 0 :=
  gumbel_log_failed_checks propto yc muc bc y mu beta h1 hfail

theorem gumbel_log_validation_sentinel_witness :
    gumbel_log false false false false [(0:ℝ)] [0] [-1] = gumbelSentinel 0 := by
  refine gumbel_log_validation_sentinel false false false false [(0:ℝ)] [0] [-1]
    (by norm_num) (Or.inl fun h => ?_)
  have := h (-1) (by rw [List.mem_singleton])
  norm_num at this

/- ------------------- claim theorems: C7 ------------------- -/

/-- C7: for arguments that pass validation, `gumbel_cdf` returns the
product over the broadcast length of `exp(-exp(-(y[n]-mu[n])/beta[n]))`,
accumulated from the multiplicative identity 1; the model is value-only,
mirroring the absence of derivative accumulation in the source. -/
theorem gumbel_cdf_product (y mu beta : List ℝ)
    (h1 : ¬(y.length = 0 ∨ mu.length = 0 ∨ beta.length = 0))
    (hpos : check_positive beta) (hcons : check_consistent_sizes y mu beta) :
    gumbel_cdf y mu beta
      = ∏ n ∈ Finset.range (max_size y mu beta),
          Real.exp (-Real.exp (-(bcastIdx y n - bcastIdx mu n) / bcastIdx beta n)) :=
  gumbel_cdf_checks_pass y mu beta h1 hpos hcons

theorem gumbel_cdf_product_witness :
    gumbel_cdf [(0:ℝ)] [0] [1] = Real.exp (-1) := by
  have h := gumbel_cdf_product [(0:ℝ)] [0] [1] (by norm_num)
    check_positive_one
    (check_consistent_sizes_all_eq [(0:ℝ)] [0] [1] 1 rfl rfl rfl)
  rw [h]
  simp only [max_size, List.length_singleton, max_self, Finset.prod_range_one,
    bcastIdx, if_pos rfl, List.getD]
  norm_num [Real.exp_zero]

/- ------------------- claim theorems: C8 ------------------- -/

/-- C8 (amended): when the scale operand type is constant and at least
one of the y/location operand types is differentiable, the full-mode
log-density exceeds the proportional-only one by the additive constant
`Σ_n -log(beta[n])` over the broadcast length, which is `-log(beta)` for
scalar arguments of broadcast length 1. -/
theorem gumbel_log_propto_shift (yc muc : Bool) (y mu beta : List ℝ)
    (h1 : ¬(y.length = 0 ∨ mu.length = 0 ∨ beta.length = 0))
    (hpos : check_positive beta) (hcons : check_consistent_sizes y mu beta)
    (hdiff : (yc && muc) = false) :
    (gumbel_log false yc muc true y mu beta).logp
        - (gumbel_log true yc muc true y mu beta).logp
      = ∑ n ∈ Finset.range (max_size y mu beta), -Real.log (bcastIdx beta n) := by
  have hincf : include_summand false [yc, muc, true] = true := by
    simp [include_summand]
  have hinct : include_summand true [yc, muc, true] = true := by
    cases yc <;> cases muc <;> simp_all [include_summand]
  rw [gumbel_log_checks_pass false yc muc true y mu beta h1 hpos hcons hincf,
    gumbel_log_checks_pass true yc muc true y mu beta h1 hpos hcons hinct,
    gumbelLoop_logp, gumbelLoop_logp]
  simp only [gumbelSentinel, zero_add]
  rw [← Finset.sum_sub_distrib]
  refine Finset.sum_congr rfl fun n _ => ?_
  have h3 : include_summand false [true] = true := by simp [include_summand]
  have h4 : include_summand true [true] = false := by simp [include_summand]
  unfold gumbelTerm
  rw [if_pos h3, if_pos hincf, if_pos hinct, if_neg (by simp [h4])]
  ring

/-- C8 counterexample: with every operand type constant, the
proportional-only call returns 0.0 from the skip check while the full
call computes -log(1) - 0 - exp(0) = -1 at y=0, mu=0, beta=1, so the
difference is -1, not the claimed -log(beta) = 0. -/
theorem gumbel_log_propto_shift_cex :
    (gumbel_log false true true true [(0:ℝ)] [0] [1]).logp
        - (gumbel_log true true true true [(0:ℝ)] [0] [1]).logp
      ≠ -Real.log 1 := by
  have hful : (gumbel_log false true true true [(0:ℝ)] [0] [1]).logp = -1 := by
    rw [gumbel_log_checks_pass false true true true [(0:ℝ)] [0] [1] (by norm_num)
      check_positive_one
      (check_consistent_sizes_all_eq [(0:ℝ)] [0] [1] 1 rfl rfl rfl) (by decide),
      gumbelLoop_logp]
    simp only [gumbelSentinel, zero_add, max_size, List.length_singleton, max_self,
      Finset.sum_range_one, gumbelTerm, zVal, invBeta, bcastIdx, if_pos rfl,
      List.getD]
    norm_num [include_summand, Real.exp_zero, Real.log_one]
  have hpro : (gumbel_log true true true true [(0:ℝ)] [0] [1]).logp = 0 := by
    rw [gumbel_log_skip true true true true [(0:ℝ)] [0] [1] (by norm_num)
      check_positive_one
      (check_consistent_sizes_all_eq [(0:ℝ)] [0] [1] 1 rfl rfl rfl) (by decide)]
    rfl
  rw [hful, hpro, Real.log_one]
  norm_num

theorem gumbel_log_propto_shift_witness :
    (gumbel_log false false true true [(0:ℝ)] [0] [2]).logp
        - (gumbel_log true false true true [(0:ℝ)] [0] [2]).logp
      = -Real.log 2 := by
  have hpos2 : check_positive [(2:ℝ)] := by
    intro x hx
    rw [List.mem_singleton] at hx
    rw [hx]
    norm_num
  have h := gumbel_log_propto_shift false true [(0:ℝ)] [0] [2] (by norm_num)
    hpos2 (check_consistent_sizes_all_eq [(0:ℝ)] [0] [2] 1 rfl rfl rfl) (by decide)
  rw [h]
  simp only [max_size, List.length_singleton, max_self, Finset.sum_range_one,
    bcastIdx, if_pos rfl, List.getD]
  norm_num

/- ------------------- claim theorems: C9 ------------------- -/

/-- C9: a zero-length argument makes `gumbel_log` return the additive
identity 0.0 (with untouched zero partial buffers) and `gumbel_cdf`
return the multiplicative identity 1, before any validation or
reduction runs. -/
theorem gumbel_zero_length_identity (propto yc muc bc : Bool)
    (y mu beta : List ℝ)
    (h : y.length = 0 ∨ mu.length = 0 ∨ beta.length = 0) :
    gumbel_log propto yc muc bc y mu beta = gumbelSentinel 0
      ∧ gumbel_cdf y mu beta = 1 := by
  constructor
  · rw [gumbel_log, if_pos h]
  · rw [gumbel_cdf, if_pos h]

theorem gumbel_zero_length_identity_witness :
    gumbel_log false false false false [] [(0:ℝ)] [1] = gumbelSentinel 0
      ∧ gumbel_cdf [] [(0:ℝ)] [1] = 1 :=
  gumbel_zero_length_identity false false false false [] [(0:ℝ)] [1]
    (Or.inl rfl)

/- ------------------- claim theorems: C10 ------------------- -/

/-- C10: the `gumbel_log` overloads that take no proportionality flag
delegate with `propto = false`, so a plain call computes the fully
normalized log-density: under passing validation its value carries the
`-log(beta[n])` summand for every broadcast index, never the
proportional-only value. -/
theorem gumbel_log_plain_full (yc muc bc : Bool) (y mu beta : List ℝ)
    (h1 : ¬(y.length = 0 ∨ mu.length = 0 ∨ beta.length = 0))
    (hpos : check_positive beta) (hcons : check_consistent_sizes y mu beta) :
    gumbel_log_plain yc muc bc y mu beta = gumbel_log false yc muc bc y mu beta
      ∧ gumbel_log_policy yc muc bc y mu beta = gumbel_log false yc muc bc y mu beta
      ∧ (gumbel_log_plain yc muc bc y mu beta).logp
          = ∑ n ∈ Finset.range (max_size y mu beta),
              (-Real.log (bcastIdx beta n)
                + (-((bcastIdx y n - bcastIdx mu n) / bcastIdx beta n)
                    - Real.exp (-((bcastIdx y n - bcastIdx mu n) / bcastIdx beta n)))) := by
  refine ⟨rfl, rfl, ?_⟩
  have hincf : include_summand false [yc, muc, bc] = true := by
    simp [include_summand]
  have h3 : include_summand false [bc] = true := by simp [include_summand]
  rw [gumbel_log_plain,
    gumbel_log_checks_pass false yc muc bc y mu beta h1 hpos hcons hincf,
    gumbelLoop_logp]
  simp only [gumbelSentinel, zero_add]
  refine Finset.sum_congr rfl fun n _ => ?_
  unfold gumbelTerm
  rw [if_pos h3, if_pos hincf]
  congr 1
  simp only [zVal, invBeta, mul_one_div]

theorem gumbel_log_plain_full_witness :
    (gumbel_log_plain true true true [(0:ℝ)] [0] [1]).logp = -1 := by
  have h := (gumbel_log_plain_full true true true [(0:ℝ)] [0] [1] (by norm_num)
    check_positive_one
    (check_consistent_sizes_all_eq [(0:ℝ)] [0] [1] 1 rfl rfl rfl)).2.2
  rw [h]
  simp only [max_size, List.length_singleton, max_self, Finset.sum_range_one,
    bcastIdx, if_pos rfl, List.getD]
  norm_num [Real.exp_zero, Real.log_one]
